import Mathlib

/-!
Shallow embedding of the wanted-persons pipeline of the crime-awareness web
app backend, together with proofs of the behavioural claims about it.

Embedded source files:
  * `backend/src/services/wanted_persons_scraper.py`
    (`_normalize_crimes`, `_normalize_record`, `_extract_records`, and the
    deduplication loop of `scrape_wanted_persons`);
  * `backend/src/services/wanted_persons_storage.py`
    (`upsert_wanted_persons`, `save_wanted_persons`, `load_wanted_persons`);
  * `backend/src/api/wanted_persons.py` (`_filter_records`);
  * `backend/src/models/wanted_person.py` (`WantedPerson`,
    `WantedPersonsPayload`, with pydantic `str_strip_whitespace=True`).

Modelling conventions:
  * Python `Any` values flowing through the scraper are modelled by the
    inductive `RawValue` (JSON-like: null, string, integer, boolean, list,
    dict).  A Python `dict` is an association list of string keys.
  * Python truthiness is `RawValue.truthy`; `x or y` is `pyOr`.
  * `str(x)` is `pyStr`.  For container values Python renders their `repr`;
    no claim stringifies a container, so containers are rendered as fixed
    markers rather than a full repr.
  * Pydantic `HttpUrl` parsing/validation is not modelled: URL fields are
    kept as optional strings (no claim exercises an invalid URL).
  * The dataset file is modelled as an explicit store of type
    `Option WantedPersonsPayload` (`none` = file absent), threaded through
    the storage operations.
-/

/-- JSON-like model of the loosely typed Python values handled by the
scraper (`Dict[str, Any]` responses from the extraction service). -/
inductive RawValue where
  | null : RawValue
  | str : String → RawValue
  | int : Int → RawValue
  | bool : Bool → RawValue
  | list : List RawValue → RawValue
  | dict : List (String × RawValue) → RawValue

/-- Python truthiness of a value (`bool(x)`): `None`, `""`, `0`, `False`,
empty containers are falsy, everything else truthy. -/
def RawValue.truthy : RawValue → Bool
  | .null => false
  | .str s => !s.isEmpty
  | .int n => n != 0
  | .bool b => b
  | .list xs => !xs.isEmpty
  | .dict ps => !ps.isEmpty

/-- Python `x or y`: `x` when truthy, else `y`. -/
def pyOr (x y : RawValue) : RawValue :=
  if x.truthy then x else y

/-- Python `str(x)` for the scalar values the pipeline stringifies.
Containers are rendered as fixed markers: Python would render their full
`repr`, which no embedded operation depends on. -/
def pyStr : RawValue → String
  | .null => "None"
  | .str s => s
  | .int n => toString n
  | .bool b => if b then "True" else "False"
  | .list _ => "[...]"
  | .dict _ => "\x7b...\x7d"

/-- Python whitespace as stripped by `str.strip()`. -/
def pyIsSpace (c : Char) : Bool :=
  c == ' ' || c == '\t' || c == '\n' || c == '\r' || c == '\x0b' || c == '\x0c'

/-- Python `s.strip()`: drop leading and trailing whitespace. -/
def pyStrip (s : String) : String :=
  (((s.toList.dropWhile pyIsSpace).reverse.dropWhile pyIsSpace).reverse).asString

/-- Python `s.lower()` (ASCII case mapping, which covers every string the
pipeline handles). -/
def pyLower (s : String) : String :=
  (s.toList.map Char.toLower).asString

/-- Fuel-driven worker for `pyReplace`: scan left to right, replacing each
non-overlapping occurrence of `pat`.  The fuel starts at the length of the
scanned list and strictly dominates it throughout, so the fuel-exhausted
branch is never taken (`pat` is nonempty at every call site). -/
def replaceCharsFuel (pat rep : List Char) : Nat → List Char → List Char
  | 0, s => s
  | _ + 1, [] => []
  | fuel + 1, c :: rest =>
      if pat ≠ [] && pat.isPrefixOf (c :: rest) then
        rep ++ replaceCharsFuel pat rep fuel ((c :: rest).drop pat.length)
      else
        c :: replaceCharsFuel pat rep fuel rest

/-- Python `s.replace(pat, rep)` for nonempty `pat`: non-overlapping,
left-to-right. -/
def pyReplace (s pat rep : String) : String :=
  (replaceCharsFuel pat.toList rep.toList s.toList.length s.toList).asString

/-- Fuel-driven worker for `pySplit`: accumulate the current field in
reverse, emitting it at each separator occurrence.  Fuel as in
`replaceCharsFuel`; the separator is nonempty at every call site. -/
def splitCharsGo (sep : List Char) : Nat → List Char → List Char →
    List (List Char)
  | _, [], acc => [acc.reverse]
  | 0, s, acc => [acc.reverse ++ s]
  | fuel + 1, c :: rest, acc =>
      if sep ≠ [] && sep.isPrefixOf (c :: rest) then
        acc.reverse :: splitCharsGo sep fuel ((c :: rest).drop sep.length) []
      else
        splitCharsGo sep fuel rest (c :: acc)

/-- Python `s.split(sep)` for nonempty `sep`: `"".split(",") = [""]`,
`",".split(",") = ["", ""]`. -/
def pySplit (s sep : String) : List String :=
  (splitCharsGo sep.toList s.toList.length s.toList []).map List.asString

/-- Python `d.get(k)` on a dict modelled as an association list: value of the
first binding of `k`, or `None` when the key is absent. -/
def dictGet (d : List (String × RawValue)) (k : String) : RawValue :=
  match d with
  | [] => .null
  | (k', v) :: rest => if k' = k then v else dictGet rest k

/-- Python `k in d` for a dict modelled as an association list. -/
def dictHasKey (d : List (String × RawValue)) (k : String) : Bool :=
  match d with
  | [] => false
  | (k', _) :: rest => k' = k || dictHasKey rest k

/-- Dict fields of a `RawValue`, empty for non-dicts (Python would raise on a
non-dict; no embedded claim reaches that case). -/
def RawValue.asDict : RawValue → List (String × RawValue)
  | .dict ps => ps
  | _ => []

/-- Elements of a `RawValue` list, empty for non-lists (Python iteration over
a non-iterable raises; no embedded claim reaches that case). -/
def RawValue.elems : RawValue → List RawValue
  | .list xs => xs
  | _ => []

/-- `backend/src/models/wanted_person.py` `WantedPerson`: the canonical,
normalized record.  `HttpUrl` fields are modelled as optional strings. -/
structure WantedPerson where
  full_name : String
  «alias» : Option String
  crimes : List String
  image_url : Option String
  police_station : Option String
  source_url : Option String
deriving DecidableEq

/-- `backend/src/models/wanted_person.py` `WantedPersonsPayload`.
`scraped_at : datetime` is modelled as an opaque string timestamp. -/
structure WantedPersonsPayload where
  scraped_at : String
  source_url : String
  items : List WantedPerson
deriving DecidableEq

/-- The configured settings the storage layer reads
(`core/settings.py` `Settings`), restricted to the fields the embedded
operations use. -/
structure Settings where
  wanted_persons_source_url : String
  default_scrape_timestamp : String
deriving DecidableEq

/-- `wanted_persons_scraper.py` `_normalize_crimes`.
`None` → `[]`; a list → each element stringified and stripped, empty results
dropped; a string → `" and "` replaced by `","`, split on `","`, parts
stripped, empty parts dropped; any other value → `[str(value)]`. -/
def normalize_crimes : RawValue → List String
  | .null => []
  | .list xs =>
      (xs.map (fun item => pyStrip (pyStr item))).filter (fun s => !s.isEmpty)
  | .str s =>
      ((pySplit (pyReplace s " and " ",") ",").map pyStrip).filter
        (fun part => !part.isEmpty)
  | v => [pyStr v]

/-- Pydantic coercion of a raw field into `Optional[str]` with
`str_strip_whitespace=True`: `None` stays absent, strings are stripped.
Other scalars are stringified; pydantic would in fact reject them, but no
embedded claim feeds a non-string scalar into a string field. -/
def fieldToOption (v : RawValue) : Option String :=
  match v with
  | .null => none
  | .str s => some (pyStrip s)
  | v => some (pyStr v)

/-- Pydantic coercion of a raw field into a required `str` field with
`str_strip_whitespace=True` (same caveats as `fieldToOption`). -/
def fieldToStr (v : RawValue) : String :=
  match v with
  | .null => ""
  | .str s => pyStrip s
  | v => pyStr v

/-- `wanted_persons_scraper.py` `_normalize_record`: resolve `full_name`
falling back to `name`; return `None` when neither is truthy; resolve
`image_url` ← `image_url`/`imageurl`, `police_station` ←
`police_station`/`location`; a falsy `alias` (absent or empty) becomes
absent; `crimes` goes through `_normalize_crimes`.  The final `.map
String.trim` on crimes models the pydantic `str_strip_whitespace` applied
when constructing `WantedPerson`. -/
def normalize_record (data : List (String × RawValue)) : Option WantedPerson :=
  let full_name := pyOr (dictGet data "full_name") (dictGet data "name")
  if !full_name.truthy then
    none
  else
    let aliasValue := dictGet data "alias"
    some
      { full_name := fieldToStr full_name
        «alias» := if aliasValue.truthy then fieldToOption aliasValue else none
        crimes := (normalize_crimes (dictGet data "crimes")).map pyStrip
        image_url :=
          fieldToOption (pyOr (dictGet data "image_url") (dictGet data "imageurl"))
        police_station :=
          fieldToOption
            (pyOr (dictGet data "police_station") (dictGet data "location"))
        source_url := fieldToOption (dictGet data "source_url") }

/-- The source-list resolution of `wanted_persons_scraper.py`
`_extract_records`: presence-based probes for `wanted_persons`,
`data.wanted_persons` and `data.criminals`, then the truthiness-based
fallback `raw.get("criminals") or raw.get("items") or []`. -/
def chooseSource (raw : List (String × RawValue)) : RawValue :=
  if dictHasKey raw "wanted_persons" then
    dictGet raw "wanted_persons"
  else if dictHasKey raw "data" &&
      dictHasKey (dictGet raw "data").asDict "wanted_persons" then
    dictGet (dictGet raw "data").asDict "wanted_persons"
  else if dictHasKey raw "data" &&
      dictHasKey (dictGet raw "data").asDict "criminals" then
    dictGet (dictGet raw "data").asDict "criminals"
  else
    pyOr (dictGet raw "criminals") (pyOr (dictGet raw "items") (.list []))

/-- `wanted_persons_scraper.py` `_extract_records`: choose the source list,
guard with `source or []`, normalize each entry, and keep only the entries
whose normalization succeeded. -/
def extract_records (raw : List (String × RawValue)) : List WantedPerson :=
  ((pyOr (chooseSource raw) (.list [])).elems).filterMap
    (fun entry => normalize_record entry.asDict)

/-- The deduplication key built by both `upsert_wanted_persons` and
`scrape_wanted_persons`:
`(person.full_name.lower(), person.alias.lower() if person.alias else None)`.
A falsy alias — absent or the empty string — keys as `None`. -/
def dedupKey (p : WantedPerson) : String × Option String :=
  (pyLower p.full_name,
   match p.«alias» with
   | some a => if a.isEmpty then none else some (pyLower a)
   | none => none)

/-- Python-dict insertion on an association list: overwrite the value in
place when the key is already bound (keeping its first-seen position),
append a new binding otherwise. -/
def dictInsert (d : List ((String × Option String) × WantedPerson))
    (k : String × Option String) (v : WantedPerson) :
    List ((String × Option String) × WantedPerson) :=
  match d with
  | [] => [(k, v)]
  | (k', v') :: rest =>
      if k' = k then (k, v) :: rest else (k', v') :: dictInsert rest k v

/-- The deduplication dict built by the loop
`for person in items: deduped[key] = person`, shared verbatim between
`upsert_wanted_persons` (storage) and `scrape_wanted_persons` (scraper). -/
def buildDedup (items : List WantedPerson) :
    List ((String × Option String) × WantedPerson) :=
  items.foldl (fun d p => dictInsert d (dedupKey p) p) []

/-- `list(deduped.values())`: the deduplicated items list produced by the
shared loop of `upsert_wanted_persons` and `scrape_wanted_persons`. -/
def upsertItems (items : List WantedPerson) : List WantedPerson :=
  (buildDedup items).map Prod.snd

/-- Lookup in the deduplication dict (Python `deduped[key]` /
`deduped.get(key)`), used to specify the dict-based collapse. -/
def dictLookup (d : List ((String × Option String) × WantedPerson))
    (k : String × Option String) : Option WantedPerson :=
  match d with
  | [] => none
  | (k', v) :: rest => if k' = k then some v else dictLookup rest k

/-- The last record of the list whose deduplication key is `k`, if any:
the record that last-write-wins semantics should keep for key `k`. -/
def lastWithKey (k : String × Option String) :
    List WantedPerson → Option WantedPerson
  | [] => none
  | p :: rest =>
      match lastWithKey k rest with
      | some q => some q
      | none => if dedupKey p = k then some p else none

/-- Collapse a key list to its distinct keys in order of first occurrence:
the iteration order of a Python dict whose keys were inserted in this
order. -/
def firstSeen (ks : List (String × Option String)) :
    List (String × Option String) :=
  ks.foldl (fun acc k => if k ∈ acc then acc else acc ++ [k]) []

/-- `wanted_persons_storage.py` `save_wanted_persons`: full overwrite of the
dataset store with the given payload. -/
def save_wanted_persons (payload : WantedPersonsPayload)
    (_store : Option WantedPersonsPayload) : Option WantedPersonsPayload :=
  some payload

/-- `wanted_persons_storage.py` `upsert_wanted_persons`: deduplicate the
items, wrap them with `scraped_at` and the configured source URL, persist the
payload, and return it together with the updated store. -/
def upsert_wanted_persons (settings : Settings) (items : List WantedPerson)
    (scraped_at : String) (store : Option WantedPersonsPayload) :
    WantedPersonsPayload × Option WantedPersonsPayload :=
  let payload : WantedPersonsPayload :=
    { scraped_at := scraped_at
      source_url := settings.wanted_persons_source_url
      items := upsertItems items }
  (payload, save_wanted_persons payload store)

/-- `wanted_persons_storage.py` `load_wanted_persons`: an absent dataset file
yields an empty payload carrying the configured default timestamp and source
URL; otherwise the stored payload is returned (its pydantic validation always
succeeds in the model, since the store holds well-typed payloads). -/
def load_wanted_persons (settings : Settings)
    (store : Option WantedPersonsPayload) : WantedPersonsPayload :=
  match store with
  | none =>
      { scraped_at := settings.default_scrape_timestamp
        source_url := settings.wanted_persons_source_url
        items := [] }
  | some payload => payload

/-- Python substring membership `needle in hay` on the character lists of the
two strings: `needle` is a prefix of some suffix of `hay`. -/
def charsContains (hay needle : List Char) : Bool :=
  match hay with
  | [] => needle.isEmpty
  | _ :: rest => needle.isPrefixOf hay || charsContains rest needle

/-- Case-insensitive Python substring test `needle.lower() in hay.lower()`. -/
def strContainsCI (hay needle : String) : Bool :=
  charsContains (pyLower hay).toList (pyLower needle).toList

/-- Python truthiness of an `Optional[str]` parameter. -/
def optTruthy : Option String → Bool
  | none => false
  | some s => !s.isEmpty

/-- The per-record predicate `matches` of `api/wanted_persons.py`
`_filter_records`: each truthy filter must be a case-insensitive substring of
the corresponding present field; an absent field fails a truthy filter. -/
def matchesFilters (station aliasFilter : Option String)
    (person : WantedPerson) : Bool :=
  let station_match :=
    if optTruthy station then
      match person.police_station, station with
      | some ps, some st => strContainsCI ps st
      | _, _ => false
    else true
  let alias_match :=
    if optTruthy aliasFilter then
      match person.«alias», aliasFilter with
      | some al, some fl => strContainsCI al fl
      | _, _ => false
    else true
  station_match && alias_match

/-- `api/wanted_persons.py` `_filter_records`: with no truthy filter the
input list is returned unchanged; otherwise keep the records matching every
truthy filter. -/
def filter_records (items : List WantedPerson)
    (station aliasFilter : Option String) : List WantedPerson :=
  if !optTruthy station && !optTruthy aliasFilter then items
  else items.filter (matchesFilters station aliasFilter)

/-- The source-list resolution as the claim words it: take the first key
path that is PRESENT, in the order `wanted_persons`, `data.wanted_persons`,
`data.criminals`, `criminals`, `items`, else the empty list.  Written from
the spec's words, to be compared with `chooseSource` (from the source). -/
def chooseSourceClaim (raw : List (String × RawValue)) : RawValue :=
  if dictHasKey raw "wanted_persons" then
    dictGet raw "wanted_persons"
  else if dictHasKey (dictGet raw "data").asDict "wanted_persons" then
    dictGet (dictGet raw "data").asDict "wanted_persons"
  else if dictHasKey (dictGet raw "data").asDict "criminals" then
    dictGet (dictGet raw "data").asDict "criminals"
  else if dictHasKey raw "criminals" then
    dictGet raw "criminals"
  else if dictHasKey raw "items" then
    dictGet raw "items"
  else
    .list []

/-- Record extraction as the claim describes it: normalize the elements of
the source list chosen by `chooseSourceClaim`, dropping failures. -/
def extract_records_claim (raw : List (String × RawValue)) :
    List WantedPerson :=
  (chooseSourceClaim raw).elems.filterMap
    (fun entry => normalize_record entry.asDict)

/-- The amended source-list resolution: the first three probes are
presence-based, but the top-level `criminals` and `items` fallbacks are
truthiness-based — a present-but-falsy `criminals` (such as the empty list)
falls through to `items`, and a falsy `items` falls through to the empty
list.  Written from the amended spec words, to be compared with
`chooseSource`. -/
def chooseSourceAmended (raw : List (String × RawValue)) : RawValue :=
  if dictHasKey raw "wanted_persons" then
    dictGet raw "wanted_persons"
  else if dictHasKey (dictGet raw "data").asDict "wanted_persons" then
    dictGet (dictGet raw "data").asDict "wanted_persons"
  else if dictHasKey (dictGet raw "data").asDict "criminals" then
    dictGet (dictGet raw "data").asDict "criminals"
  else if (dictGet raw "criminals").truthy then
    dictGet raw "criminals"
  else if (dictGet raw "items").truthy then
    dictGet raw "items"
  else
    .list []

/-- Record extraction under the amended resolution. -/
def extract_records_amended (raw : List (String × RawValue)) :
    List WantedPerson :=
  (chooseSourceAmended raw).elems.filterMap
    (fun entry => normalize_record entry.asDict)

/-- The deduplication key as the claim words it:
`(lowercase(full_name), lowercase(alias) if alias is PRESENT else absent)` —
under this reading an empty-string alias is present and keys as `some ""`.
Written from the spec's words, to be compared with `dedupKey` (from the
source, which keys any falsy alias as absent). -/
def claimDedupKey (p : WantedPerson) : String × Option String :=
  (pyLower p.full_name, p.«alias».map pyLower)

/-! ### Helper lemmas about the deduplication dict -/

theorem dictLookup_dictInsert_self
    (d : List ((String × Option String) × WantedPerson))
    (k : String × Option String) (v : WantedPerson) :
    dictLookup (dictInsert d k v) k = some v := by
  induction d with
  | nil => simp [dictInsert, dictLookup]
  | cons e rest ih =>
      obtain ⟨k', v'⟩ := e
      by_cases h : k' = k
      · simp [dictInsert, h, dictLookup]
      · simp [dictInsert, h, dictLookup, ih]

theorem dictLookup_dictInsert_ne
    (d : List ((String × Option String) × WantedPerson))
    (k k₁ : String × Option String) (v : WantedPerson) (h : k₁ ≠ k) :
    dictLookup (dictInsert d k v) k₁ = dictLookup d k₁ := by
  induction d with
  | nil => simp [dictInsert, dictLookup, Ne.symm h]
  | cons e rest ih =>
      obtain ⟨k', v'⟩ := e
      by_cases hk : k' = k
      · subst hk
        simp [dictInsert, dictLookup, Ne.symm h]
      · by_cases hk1 : k' = k₁
        · simp [dictInsert, hk, dictLookup, hk1, h]
        · simp [dictInsert, hk, dictLookup, hk1, ih]

theorem dictInsert_keys
    (d : List ((String × Option String) × WantedPerson))
    (k : String × Option String) (v : WantedPerson) :
    (dictInsert d k v).map Prod.fst =
      if k ∈ d.map Prod.fst then d.map Prod.fst
      else d.map Prod.fst ++ [k] := by
  induction d with
  | nil => simp [dictInsert]
  | cons e rest ih =>
      obtain ⟨k', v'⟩ := e
      by_cases h : k' = k
      · simp [dictInsert, h]
      · by_cases hmem : k ∈ rest.map Prod.fst
        · simp [dictInsert, h, ih, hmem, Ne.symm h]
        · simp [dictInsert, h, ih, hmem, Ne.symm h]

theorem mem_dictInsert
    (d : List ((String × Option String) × WantedPerson))
    (k : String × Option String) (v : WantedPerson)
    (e : (String × Option String) × WantedPerson)
    (he : e ∈ dictInsert d k v) : e = (k, v) ∨ e ∈ d := by
  induction d with
  | nil => simpa [dictInsert] using he
  | cons e' rest ih =>
      obtain ⟨k', v'⟩ := e'
      by_cases h : k' = k
      · simp only [dictInsert, h, if_pos rfl] at he
        rcases List.mem_cons.mp he with h1 | h1
        · exact Or.inl h1
        · exact Or.inr (List.mem_cons_of_mem _ h1)
      · simp only [dictInsert, if_neg h] at he
        rcases List.mem_cons.mp he with h1 | h1
        · exact Or.inr (h1 ▸ List.mem_cons_self _ _)
        · rcases ih h1 with h2 | h2
          · exact Or.inl h2
          · exact Or.inr (List.mem_cons_of_mem _ h2)

theorem dictLookup_foldl_dedup (items : List WantedPerson) :
    ∀ (d : List ((String × Option String) × WantedPerson))
      (k : String × Option String),
      dictLookup (items.foldl (fun d p => dictInsert d (dedupKey p) p) d) k =
        (lastWithKey k items).or (dictLookup d k) := by
  induction items with
  | nil => intro d k; simp [lastWithKey, Option.or]
  | cons p rest ih =>
      intro d k
      rw [List.foldl_cons, ih]
      cases hrest : lastWithKey k rest with
      | some q => simp [lastWithKey, hrest, Option.or]
      | none =>
          by_cases hk : dedupKey p = k
          · subst hk
            simp [lastWithKey, hrest, Option.or, dictLookup_dictInsert_self]
          · simp [lastWithKey, hrest, Option.or, hk,
              dictLookup_dictInsert_ne _ _ _ _ (Ne.symm hk)]

theorem buildDedup_lookup (items : List WantedPerson)
    (k : String × Option String) :
    dictLookup (buildDedup items) k = lastWithKey k items := by
  rw [buildDedup, dictLookup_foldl_dedup]
  cases lastWithKey k items <;> simp [dictLookup, Option.or]

theorem buildDedup_wellKeyed (items : List WantedPerson) :
    ∀ e ∈ buildDedup items, e.1 = dedupKey e.2 := by
  suffices h : ∀ (d : List ((String × Option String) × WantedPerson)),
      (∀ e ∈ d, e.1 = dedupKey e.2) →
      ∀ e ∈ items.foldl (fun d p => dictInsert d (dedupKey p) p) d,
        e.1 = dedupKey e.2 by
    exact h [] (by simp)
  induction items with
  | nil => intro d hd e he; exact hd e he
  | cons p rest ih =>
      intro d hd e he
      rw [List.foldl_cons] at he
      refine ih (dictInsert d (dedupKey p) p) ?_ e he
      intro e' he'
      rcases mem_dictInsert _ _ _ _ he' with h1 | h1
      · subst h1; rfl
      · exact hd e' h1

theorem buildDedup_keys_firstSeen (items : List WantedPerson) :
    ∀ (d : List ((String × Option String) × WantedPerson)),
      (items.foldl (fun d p => dictInsert d (dedupKey p) p) d).map Prod.fst =
        (items.map dedupKey).foldl
          (fun acc k => if k ∈ acc then acc else acc ++ [k])
          (d.map Prod.fst) := by
  induction items with
  | nil => intro d; simp
  | cons p rest ih =>
      intro d
      rw [List.foldl_cons, ih, List.map_cons, List.foldl_cons,
        dictInsert_keys]

theorem upsertItems_keys (items : List WantedPerson) :
    (upsertItems items).map dedupKey = firstSeen (items.map dedupKey) := by
  have hwk := buildDedup_wellKeyed items
  have hkeys := buildDedup_keys_firstSeen items []
  calc (upsertItems items).map dedupKey
      = (buildDedup items).map (fun e => dedupKey e.2) := by
        simp [upsertItems, List.map_map, Function.comp]
    _ = (buildDedup items).map Prod.fst := by
        exact (List.map_congr_left fun e he => (hwk e he).symm)
    _ = firstSeen (items.map dedupKey) := by
        simpa [firstSeen, buildDedup] using hkeys

theorem firstSeen_foldl_nodup (ks : List (String × Option String)) :
    ∀ acc : List (String × Option String), acc.Nodup →
      (ks.foldl (fun acc k => if k ∈ acc then acc else acc ++ [k])
        acc).Nodup := by
  induction ks with
  | nil => intro acc hacc; simpa using hacc
  | cons k rest ih =>
      intro acc hacc
      rw [List.foldl_cons]
      by_cases h : k ∈ acc
      · rw [if_pos h]
        exact ih acc hacc
      · rw [if_neg h]
        refine ih (acc ++ [k]) ?_
        simp [List.nodup_append, hacc, h]

theorem firstSeen_nodup (ks : List (String × Option String)) :
    (firstSeen ks).Nodup :=
  firstSeen_foldl_nodup ks [] List.nodup_nil

theorem dictLookup_eq_some_of_mem
    (d : List ((String × Option String) × WantedPerson))
    (k : String × Option String) (v : WantedPerson)
    (hnd : (d.map Prod.fst).Nodup) (hm : (k, v) ∈ d) :
    dictLookup d k = some v := by
  induction d with
  | nil => cases hm
  | cons e rest ih =>
      obtain ⟨k', v'⟩ := e
      rw [List.map_cons] at hnd
      have hnd' := List.nodup_cons.mp hnd
      rcases List.mem_cons.mp hm with h1 | h1
      · injection h1 with h1a h1b
        subst h1a
        subst h1b
        simp [dictLookup]
      · have hk : k' ≠ k := by
          intro hkk
          subst hkk
          exact hnd'.1 (List.mem_map.mpr ⟨(k', v), h1, rfl⟩)
        simp only [dictLookup, if_neg hk]
        exact ih hnd'.2 h1

theorem mem_of_dictLookup_eq_some
    (d : List ((String × Option String) × WantedPerson))
    (k : String × Option String) (v : WantedPerson)
    (h : dictLookup d k = some v) : (k, v) ∈ d := by
  induction d with
  | nil => simp [dictLookup] at h
  | cons e rest ih =>
      obtain ⟨k', v'⟩ := e
      by_cases hk : k' = k
      · subst hk
        simp [dictLookup] at h
        subst h
        exact List.mem_cons_self _ _
      · simp only [dictLookup, if_neg hk] at h
        exact List.mem_cons_of_mem _ (ih h)

theorem dict_values_eq_filterMap_lookup
    (d : List ((String × Option String) × WantedPerson))
    (hnd : (d.map Prod.fst).Nodup) :
    d.map Prod.snd = (d.map Prod.fst).filterMap (fun k => dictLookup d k) := by
  induction d with
  | nil => simp
  | cons e rest ih =>
      obtain ⟨k, v⟩ := e
      have hrest : (rest.map Prod.fst).Nodup := (List.nodup_cons.mp hnd).2
      have hknotin : k ∉ rest.map Prod.fst := (List.nodup_cons.mp hnd).1
      simp only [List.map_cons, List.filterMap_cons]
      rw [show dictLookup ((k, v) :: rest) k = some v by
        simp [dictLookup]]
      congr 1
      rw [ih hrest]
      refine List.filterMap_congr ?_
      intro k' hk'
      have hne : k ≠ k' := fun h => hknotin (h ▸ hk')
      simp [dictLookup, hne]

theorem buildDedup_keys_nodup (items : List WantedPerson) :
    ((buildDedup items).map Prod.fst).Nodup := by
  have h := buildDedup_keys_firstSeen items []
  rw [buildDedup]
  rw [h]
  simpa [firstSeen] using firstSeen_nodup (items.map dedupKey)

theorem upsertItems_mem_iff (items : List WantedPerson) (p : WantedPerson) :
    p ∈ upsertItems items ↔ lastWithKey (dedupKey p) items = some p := by
  constructor
  · intro hp
    obtain ⟨e, he, hesnd⟩ := List.mem_map.mp hp
    have hkey := buildDedup_wellKeyed items e he
    have hmem : (dedupKey p, p) ∈ buildDedup items := by
      have : e = (dedupKey p, p) := by
        obtain ⟨k, v⟩ := e
        simp only at hesnd hkey
        subst hesnd
        subst hkey
        rfl
      exact this ▸ he
    rw [← buildDedup_lookup]
    exact dictLookup_eq_some_of_mem _ _ _ (buildDedup_keys_nodup items) hmem
  · intro hlast
    have hlook : dictLookup (buildDedup items) (dedupKey p) = some p := by
      rw [buildDedup_lookup]; exact hlast
    have hmem := mem_of_dictLookup_eq_some _ _ _ hlook
    exact List.mem_map.mpr ⟨(dedupKey p, p), hmem, rfl⟩

theorem upsertItems_eq_filterMap (items : List WantedPerson) :
    upsertItems items =
      (firstSeen (items.map dedupKey)).filterMap
        (fun k => lastWithKey k items) := by
  have hkeys : (buildDedup items).map Prod.fst =
      firstSeen (items.map dedupKey) := by
    have h := buildDedup_keys_firstSeen items []
    rw [buildDedup, h]
    rfl
  calc upsertItems items
      = (buildDedup items).map Prod.snd := rfl
    _ = ((buildDedup items).map Prod.fst).filterMap
          (fun k => dictLookup (buildDedup items) k) :=
        dict_values_eq_filterMap_lookup _ (buildDedup_keys_nodup items)
    _ = (firstSeen (items.map dedupKey)).filterMap
          (fun k => lastWithKey k items) := by
        rw [hkeys]
        simp only [buildDedup_lookup]

/-! ### Helper lemmas about source resolution -/

theorem elems_of_not_truthy (v : RawValue) (h : v.truthy = false) :
    v.elems = [] := by
  cases v with
  | list xs =>
      cases xs with
      | nil => simp [RawValue.elems]
      | cons a as => simp [RawValue.truthy] at h
  | _ => simp [RawValue.elems]

theorem elems_pyOr_empty (v : RawValue) :
    (pyOr v (.list [])).elems = v.elems := by
  by_cases h : v.truthy
  · simp [pyOr, h]
  · rw [pyOr, if_neg h]
    rw [elems_of_not_truthy v (Bool.not_eq_true _ ▸ eq_false_of_ne_true h)]
    simp [RawValue.elems]

theorem elems_pyOr_or_empty (a b : RawValue) :
    (pyOr a (pyOr b (.list []))).elems =
      if a.truthy then a.elems else if b.truthy then b.elems else [] := by
  by_cases ha : a.truthy
  · simp [pyOr, ha]
  · by_cases hb : b.truthy
    · simp [pyOr, ha, hb]
    · simp [pyOr, ha, hb, RawValue.elems]

theorem dictGet_of_not_hasKey (d : List (String × RawValue)) (k : String)
    (h : dictHasKey d k = false) : dictGet d k = .null := by
  induction d with
  | nil => simp [dictGet]
  | cons e rest ih =>
      obtain ⟨k', v⟩ := e
      simp only [dictHasKey, Bool.or_eq_false_iff, decide_eq_false_iff_not] at h
      simp only [dictGet, if_neg h.1]
      exact ih h.2

theorem hasKey_data_and (raw : List (String × RawValue)) (k : String) :
    (dictHasKey raw "data" &&
        dictHasKey (dictGet raw "data").asDict k) =
      dictHasKey (dictGet raw "data").asDict k := by
  by_cases h : dictHasKey raw "data"
  · simp [h]
  · have h' : dictHasKey raw "data" = false := eq_false_of_ne_true h
    rw [dictGet_of_not_hasKey _ _ h']
    simp [h', RawValue.asDict, dictHasKey]

theorem extract_records_eq_amended (raw : List (String × RawValue)) :
    extract_records raw = extract_records_amended raw := by
  rw [extract_records, extract_records_amended, elems_pyOr_empty]
  rw [chooseSource, chooseSourceAmended, hasKey_data_and, hasKey_data_and]
  by_cases h1 : dictHasKey raw "wanted_persons"
  · simp [h1]
  · by_cases h2 : dictHasKey (dictGet raw "data").asDict "wanted_persons"
    · simp [h1, h2]
    · by_cases h3 : dictHasKey (dictGet raw "data").asDict "criminals"
      · simp [h1, h2, h3]
      · simp only [h1, h2, h3, if_false, Bool.false_eq_true]
        rw [elems_pyOr_or_empty, apply_ite RawValue.elems,
          apply_ite RawValue.elems]
        simp [RawValue.elems]

/-! ### Claim theorems -/

/-- C1 counterexample: the claim keys a record by
`(lowercase(full_name), lowercase(alias) if alias is present else absent)`.
Under that key the two records below — same name, one with the
present-but-empty alias `""`, one with no alias — have distinct keys, so each
is the unique (hence last) record of its key and both should appear in the
output.  The code keys any falsy alias as absent, so they collide and only
the later record survives. -/
theorem upsert_claim_key_counterexample :
    claimDedupKey ⟨"John Doe", some "", ["Fraud"], none, none, none⟩ ≠
      claimDedupKey ⟨"John Doe", none, ["Robbery"], none, none, none⟩ ∧
    upsertItems [⟨"John Doe", some "", ["Fraud"], none, none, none⟩,
        ⟨"John Doe", none, ["Robbery"], none, none, none⟩] =
      [⟨"John Doe", none, ["Robbery"], none, none, none⟩] := by
  exact ⟨by decide, by decide⟩

/-- C1 (amended): the deduplication shared by `upsert_wanted_persons` and
`scrape_wanted_persons` keys each record by
`(lowercase(full_name), lowercase(alias) if alias is present AND non-empty,
else absent)` (`dedupKey`); a record appears in the resulting items list
exactly when it is the last input record carrying its key; in particular two
records with the same `full_name`, both without alias, differing only in
`crimes`, collapse to the later one. -/
theorem upsert_last_write_wins :
    (∀ (items : List WantedPerson) (p : WantedPerson),
      p ∈ upsertItems items ↔ lastWithKey (dedupKey p) items = some p) ∧
    upsertItems [⟨"John Doe", none, ["Fraud"], none, none, none⟩,
        ⟨"John Doe", none, ["Robbery"], none, none, none⟩] =
      [⟨"John Doe", none, ["Robbery"], none, none, none⟩] := by
  exact ⟨upsertItems_mem_iff, by decide⟩

/-- C2: `upsert(items, t)` persists exactly the payload it returns (a full
overwrite of any prior snapshot), loading the persisted snapshot afterwards
yields that payload, its items are the deduplicated item set, and its
`scraped_at` is `t`. -/
theorem upsert_then_load_round_trip (settings : Settings)
    (items : List WantedPerson) (t : String)
    (store : Option WantedPersonsPayload) :
    (upsert_wanted_persons settings items t store).2 =
      some (upsert_wanted_persons settings items t store).1 ∧
    load_wanted_persons settings
        (upsert_wanted_persons settings items t store).2 =
      (upsert_wanted_persons settings items t store).1 ∧
    (upsert_wanted_persons settings items t store).1.items =
      upsertItems items ∧
    (upsert_wanted_persons settings items t store).1.scraped_at = t := by
  exact ⟨rfl, rfl, rfl, rfl⟩

/-- C3 counterexample: with `criminals` present at the top level as an empty
list next to a non-empty `items`, the claim's presence-first resolution
would pick the empty `criminals` list and extract nothing, but the code's
`raw.get("criminals") or raw.get("items") or []` skips the falsy `criminals`
and extracts from `items`. -/
theorem extract_records_presence_counterexample :
    extract_records_claim
        [("criminals", .list []),
         ("items", .list [.dict [("name", .str "A")]])] = [] ∧
    extract_records
        [("criminals", .list []),
         ("items", .list [.dict [("name", .str "A")]])] =
      [⟨"A", none, [], none, none, none⟩] := by
  exact ⟨by decide, by decide⟩

/-- C3 (amended): `extract_records` resolves its source list by probing, in
order, the PRESENT key paths `wanted_persons`, `data.wanted_persons` and
`data.criminals`, and otherwise falls back to the first TRUTHY of top-level
`criminals`, then top-level `items`, else the empty list — so a present but
empty (falsy) `criminals` is skipped in favour of `items`. -/
theorem extract_records_source_resolution
    (raw : List (String × RawValue)) :
    extract_records raw = extract_records_amended raw :=
  extract_records_eq_amended raw

/-- C4: `normalize_crimes` maps an absent value (and the empty list) to the
empty list; a list to its elements stringified and stripped with empty
results dropped; a string to the comma-split parts after replacing the
literal separator `" and "` by a comma, parts stripped and empty parts
dropped (so `"Murder and Robbery, Fraud"` yields
`["Murder", "Robbery", "Fraud"]`); and any other scalar to the one-element
list of its string form. -/
theorem normalize_crimes_spec :
    normalize_crimes .null = [] ∧
    normalize_crimes (.list []) = [] ∧
    normalize_crimes (.str "Murder and Robbery, Fraud") =
      ["Murder", "Robbery", "Fraud"] ∧
    (∀ xs : List RawValue,
      normalize_crimes (.list xs) =
        (xs.map (fun item => pyStrip (pyStr item))).filter
          (fun s => !s.isEmpty)) ∧
    (∀ s : String,
      normalize_crimes (.str s) =
        ((pySplit (pyReplace s " and " ",") ",").map pyStrip).filter
          (fun part => !part.isEmpty)) ∧
    (∀ n : Int, normalize_crimes (.int n) = [toString n]) ∧
    (∀ b : Bool, normalize_crimes (.bool b) = [pyStr (.bool b)]) := by
  exact ⟨rfl, by decide, by decide, fun xs => rfl, fun s => rfl,
    fun n => rfl, fun b => rfl⟩

/-- C5: a raw record in which neither `full_name` nor the `name` fallback is
truthy normalizes to absent rather than an error; `normalize({"alias":"X"})`
is absent; and `extract_records` silently omits such entries, yielding a
shorter list rather than failing. -/
theorem normalize_record_missing_name :
    (∀ data : List (String × RawValue),
      (pyOr (dictGet data "full_name") (dictGet data "name")).truthy =
          false →
        normalize_record data = none) ∧
    normalize_record [("alias", .str "X")] = none ∧
    extract_records
        [("wanted_persons",
          .list [.dict [("alias", .str "X")], .dict [("name", .str "A")]])] =
      [⟨"A", none, [], none, none, none⟩] := by
  refine ⟨?_, by decide, by decide⟩
  intro data h
  simp [normalize_record, h]

/-- Witness for C5 at a concrete record carrying no name field. -/
theorem normalize_record_missing_name_witness :
    normalize_record [("police_station", RawValue.str "Central")] = none :=
  normalize_record_missing_name.1 _ (by decide)

/-- C6: for any record that normalizes successfully, `full_name` was
resolved from `full_name` falling back to `name`, `image_url` from
`image_url` falling back to `imageurl`, `police_station` from
`police_station` falling back to `location`, and an empty-string `alias`
became absent; on the spec's example the three fallback fields resolve as
claimed. -/
theorem normalize_record_field_fallbacks :
    (∀ (data : List (String × RawValue)) (p : WantedPerson),
      normalize_record data = some p →
        p.full_name =
          fieldToStr
            (pyOr (dictGet data "full_name") (dictGet data "name")) ∧
        p.image_url =
          fieldToOption
            (pyOr (dictGet data "image_url") (dictGet data "imageurl")) ∧
        p.police_station =
          fieldToOption
            (pyOr (dictGet data "police_station")
              (dictGet data "location")) ∧
        (dictGet data "alias" = .str "" → p.«alias» = none)) ∧
    normalize_record
        [("name", .str "John Doe"), ("imageurl", .str "http://x/y.jpg"),
         ("location", .str "Central")] =
      some ⟨"John Doe", none, [], some "http://x/y.jpg", some "Central",
        none⟩ := by
  refine ⟨?_, by decide⟩
  intro data p h
  by_cases ht :
      (pyOr (dictGet data "full_name") (dictGet data "name")).truthy
  · simp only [normalize_record, ht, Bool.not_true, Bool.false_eq_true,
      if_false, Option.some.injEq] at h
    subst h
    refine ⟨rfl, rfl, rfl, ?_⟩
    intro ha
    rw [ha]
    rfl
  · simp [normalize_record, eq_false_of_ne_true ht] at h

/-- Witness for C6 at a concrete record exercising every fallback and the
empty-string alias. -/
theorem normalize_record_field_fallbacks_witness :
    (⟨"Jane", none, [], none, some "HQ", none⟩ : WantedPerson).full_name =
        fieldToStr
          (pyOr (dictGet [("name", RawValue.str "Jane"),
              ("alias", RawValue.str ""), ("location", RawValue.str "HQ")]
              "full_name")
            (dictGet [("name", RawValue.str "Jane"),
              ("alias", RawValue.str ""), ("location", RawValue.str "HQ")]
              "name")) ∧
      (⟨"Jane", none, [], none, some "HQ", none⟩ :
            WantedPerson).image_url =
        fieldToOption
          (pyOr (dictGet [("name", RawValue.str "Jane"),
              ("alias", RawValue.str ""), ("location", RawValue.str "HQ")]
              "image_url")
            (dictGet [("name", RawValue.str "Jane"),
              ("alias", RawValue.str ""), ("location", RawValue.str "HQ")]
              "imageurl")) ∧
      (⟨"Jane", none, [], none, some "HQ", none⟩ :
            WantedPerson).police_station =
        fieldToOption
          (pyOr (dictGet [("name", RawValue.str "Jane"),
              ("alias", RawValue.str ""), ("location", RawValue.str "HQ")]
              "police_station")
            (dictGet [("name", RawValue.str "Jane"),
              ("alias", RawValue.str ""), ("location", RawValue.str "HQ")]
              "location")) ∧
      (dictGet [("name", RawValue.str "Jane"), ("alias", RawValue.str ""),
            ("location", RawValue.str "HQ")] "alias" = RawValue.str "" →
        (⟨"Jane", none, [], none, some "HQ", none⟩ :
          WantedPerson).«alias» = none) :=
  normalize_record_field_fallbacks.1
    [("name", RawValue.str "Jane"), ("alias", RawValue.str ""),
      ("location", RawValue.str "HQ")]
    ⟨"Jane", none, [], none, some "HQ", none⟩ (by decide)

/-- C7: a non-empty station filter keeps exactly the records whose
`police_station` is present and contains the filter text as a
case-insensitive substring; a non-empty alias filter behaves the same way on
`alias`; with both filters supplied a record is kept exactly when both
conditions hold; an absent field never matches a non-empty filter; and on
the spec's example `station="central"` keeps `"Central Police Station"` and
drops `"Clarendon Police"`. -/
theorem filter_records_semantics :
    (∀ (items : List WantedPerson) (st : String), st ≠ "" →
      filter_records items (some st) none =
        items.filter (fun p =>
          match p.police_station with
          | some ps => strContainsCI ps st
          | none => false)) ∧
    (∀ (items : List WantedPerson) (al : String), al ≠ "" →
      filter_records items none (some al) =
        items.filter (fun p =>
          match p.«alias» with
          | some a => strContainsCI a al
          | none => false)) ∧
    (∀ (items : List WantedPerson) (st al : String), st ≠ "" → al ≠ "" →
      filter_records items (some st) (some al) =
        items.filter (fun p =>
          (match p.police_station with
           | some ps => strContainsCI ps st
           | none => false) &&
          (match p.«alias» with
           | some a => strContainsCI a al
           | none => false))) ∧
    filter_records
        [⟨"X", none, [], none, some "Central Police Station", none⟩,
         ⟨"Y", none, [], none, some "Clarendon Police", none⟩]
        (some "central") none =
      [⟨"X", none, [], none, some "Central Police Station", none⟩] := by
  have hempty : ∀ s : String, s ≠ "" → s.isEmpty = false := by
    intro s hs
    cases h : s.isEmpty
    · rfl
    · exact absurd ((String.isEmpty_iff s).mp h) hs
  refine ⟨?_, ?_, ?_, by decide⟩
  · intro items st hst
    rw [filter_records]
    simp only [optTruthy, hempty st hst, Bool.not_false, Bool.not_true,
      Bool.and_false, Bool.false_eq_true, if_false]
    refine List.filter_congr ?_
    intro p _
    simp only [matchesFilters, optTruthy, hempty st hst, Bool.not_false,
      if_true, if_false, Bool.and_true]
    cases p.police_station <;> simp
  · intro items al hal
    rw [filter_records]
    simp only [optTruthy, hempty al hal, Bool.not_false, Bool.not_true,
      Bool.false_and, Bool.false_eq_true, if_false]
    refine List.filter_congr ?_
    intro p _
    simp only [matchesFilters, optTruthy, hempty al hal, Bool.not_false,
      if_true, if_false, Bool.true_and]
    cases p.«alias» <;> simp
  · intro items st al hst hal
    rw [filter_records]
    simp only [optTruthy, hempty st hst, hempty al hal, Bool.not_false,
      Bool.not_true, Bool.and_false, Bool.false_and, Bool.false_eq_true,
      if_false]
    refine List.filter_congr ?_
    intro p _
    simp only [matchesFilters, optTruthy, hempty st hst, hempty al hal,
      Bool.not_false, if_true]
    cases p.police_station <;> cases p.«alias» <;> simp

/-- Witness for C7: both filters at concrete non-empty texts on a concrete
list. -/
theorem filter_records_semantics_witness :
    filter_records
        [⟨"X", some "Slim", [], none, some "Central Police Station", none⟩,
         ⟨"Y", some "Slim", [], none, some "Clarendon Police", none⟩]
        (some "central") (some "slim") =
      [⟨"X", some "Slim", [], none, some "Central Police Station",
        none⟩] := by
  rw [filter_records_semantics.2.2.1 _ "central" "slim" (by decide)
    (by decide)]
  decide

/-- C8: with neither a station nor an alias filter supplied,
`_filter_records` returns the input list unchanged — same elements, same
order, same length. -/
theorem filter_records_no_filters (items : List WantedPerson) :
    filter_records items none none = items := rfl

/-- C9: loading the dataset when the persistent file is absent returns an
empty payload carrying the configured default timestamp and configured
source URL, not an error. -/
theorem load_missing_file_defaults (settings : Settings) :
    load_wanted_persons settings none =
      { scraped_at := settings.default_scrape_timestamp
        source_url := settings.wanted_persons_source_url
        items := [] } := rfl

/-- C10: the deduplicated items list contains one record per distinct key in
order of each key's first occurrence in the input, the record stored for a
key being the last input record with that key; and no two output records
share a deduplication key. -/
theorem upsert_first_seen_order (items : List WantedPerson) :
    upsertItems items =
      (firstSeen (items.map dedupKey)).filterMap
        (fun k => lastWithKey k items) ∧
    ((upsertItems items).map dedupKey).Nodup := by
  refine ⟨upsertItems_eq_filterMap items, ?_⟩
  rw [upsertItems_keys]
  exact firstSeen_nodup _
